import Mathlib

/-!
Shallow embedding of the acquisition-and-installation pipeline of the
`ai-station-navigator` repository, together with theorems checking the
natural-language specification against the code.

Embedded components (file, function):
* `bin/security_scanner.py` : `batch_scan` (scan coordinator);
* `bin/skill_install_workflow.py` : `security_scan_node`, `check_threat_level`,
  `install_skills_node`, and the exit-code computation at the end of `main`;
* `bin/skill_manager.py` : `SkillInstaller.install` (atomic install with rollback);
* `bin/clone_manager.py` : `RepoCacheManager.get_or_clone` / `clear_cache` /
  `list_cache`, and `GitHubHandler.extract_skills` (skill discovery).

Filesystem contents, the external scanner, the metadata store and the git
clone are modelled as explicit inputs (trees, oracles and outcome flags);
the control flow of each Python function is transcribed branch by branch.
-/

namespace AiStation

/-! ## String primitives

Python string operations re-implemented over the character list of a
`String`, so that every definition below evaluates inside the kernel.
`strToLower` matches Python `str.lower` on the ASCII names this program
manipulates. -/

/-- Python `s.startswith(pre)`. -/
def strStartsWith (s pre : String) : Bool :=
  pre.data.isPrefixOf s.data

/-- Python `s.endswith(suf)`. -/
def strEndsWith (s suf : String) : Bool :=
  suf.data.isSuffixOf s.data

/-- Python `s.lower()` (ASCII). -/
def strToLower (s : String) : String :=
  String.mk (s.data.map Char.toLower)

/-- Python `s[:n]` (by characters). -/
def strTake (s : String) (n : Nat) : String :=
  String.mk (s.data.take n)

/-- Fuel-driven worker for `strReplace`: replace non-overlapping
occurrences of `pat` left to right.  The fuel starts at the input length,
which suffices for every non-empty pattern because each step consumes at
least one character. -/
def replaceListAux (pat rep : List Char) : Nat → List Char → List Char
  | _, [] => []
  | 0, s => s
  | fuel + 1, c :: cs =>
    if pat.isPrefixOf (c :: cs) then
      rep ++ replaceListAux pat rep fuel (List.drop pat.length (c :: cs))
    else
      c :: replaceListAux pat rep fuel cs

/-- Python `s.replace(pat, rep)` for a non-empty `pat`. -/
def strReplace (s pat rep : String) : String :=
  String.mk (replaceListAux pat.data rep.data s.data.length s.data)

/-- Last path component of a `/`-separated path string, mirroring
Python's `Path(p).name` on the simple relative/absolute paths the
workflow passes around. -/
def pathName (p : String) : String :=
  String.mk ((List.splitOn '/' p.data).getLast? |>.getD [])

/-! ## Scan coordinator (`bin/security_scanner.py`) -/

/-- Severity levels produced by the scanner boundary
(`SAFE < LOW < MEDIUM < HIGH < CRITICAL`, plus `UNKNOWN` for failures). -/
inductive Severity where
  | SAFE | LOW | MEDIUM | HIGH | CRITICAL | UNKNOWN
deriving DecidableEq, Repr

/-- Shape of one scan result dictionary as produced by `scan` /
consumed by the workflow (`status`, `severity`, `findings_count`). -/
structure ScanData where
  status : String
  severity : Severity
  findingsCount : Nat
deriving DecidableEq, Repr

/-- Outcome of one invocation of the external scanner on a skill
directory: either a result dictionary or a raised exception. -/
inductive ScanOutcome where
  | ok (r : ScanData)
  | throws (msg : String)
deriving DecidableEq, Repr

/-- The per-skill error result `batch_scan` builds in its `except` branch:
`status "error"`, `severity UNKNOWN`, zero findings. -/
def errorScanData : ScanData := ⟨"error", Severity.UNKNOWN, 0⟩

/-- The result recorded for a skill whose scan either returned normally or
raised (the `try`/`except` conversion in `batch_scan`). -/
def outcomeToData : ScanOutcome → ScanData
  | ScanOutcome.ok r => r
  | ScanOutcome.throws _ => errorScanData

/-- The `scan_enabled == false` placeholder entry (`status "skipped"`;
the workflow later reads its missing severity as `UNKNOWN`). -/
def skippedScanData : ScanData := ⟨"skipped", Severity.UNKNOWN, 0⟩

/-- Python-dict assignment `m[k] = v` on an insertion-ordered association
list: overwrite in place if the key exists, else append. -/
def dictInsert (m : List (String × ScanData)) (k : String) (v : ScanData) :
    List (String × ScanData) :=
  if m.any (fun p => p.1 = k) then
    m.map (fun p => if p.1 = k then (k, v) else p)
  else
    m ++ [(k, v)]

/-- `batch_scan(skill_dirs)` from `bin/security_scanner.py`.

The result dictionary is keyed by `skill_dir.name` (the basename).  With
scanning disabled every directory maps to the `skipped` placeholder.  A
single directory is scanned synchronously inside `try`/`except`; longer
lists are partitioned into batches of 8 and scanned on a worker pool, and
each future's exception is caught and converted to `errorScanData`.
Futures are iterated in submission order and batches are sequential, so
the dictionary assignments happen in list order; the batching itself does
not change the resulting dictionary, which lets the embedding fold over
the whole list. -/
def batch_scan (scanner : String → ScanOutcome) (scanEnabled : Bool)
    (skillDirs : List String) : List (String × ScanData) :=
  if !scanEnabled then
    skillDirs.foldl (fun m d => dictInsert m (pathName d) skippedScanData) []
  else
    match skillDirs with
    | [d] => [(pathName d, outcomeToData (scanner d))]
    | _ => skillDirs.foldl
        (fun m d => dictInsert m (pathName d) (outcomeToData (scanner d))) []

/-! ## Workflow nodes (`bin/skill_install_workflow.py`) -/

/-- The filter `security_scan_node` applies to build `threatened_skills`:
entries whose severity is not in `["SAFE", "LOW"]`. -/
def threatenedOf (results : List (String × ScanData)) :
    List (String × ScanData) :=
  results.filter (fun r =>
    !(r.2.severity = Severity.SAFE || r.2.severity = Severity.LOW))

/-- Targets of the conditional edge after the scanning node. -/
inductive Route where
  | llm_analysis
  | install
deriving DecidableEq, Repr

/-- `check_threat_level(state)`: route to LLM review iff some threatened
skill has severity `MEDIUM`, `HIGH` or `CRITICAL`; otherwise install. -/
def check_threat_level (threatened : List (String × ScanData)) : Route :=
  if threatened.isEmpty then Route.install
  else if threatened.any (fun t =>
      t.2.severity = Severity.MEDIUM || t.2.severity = Severity.HIGH ||
      t.2.severity = Severity.CRITICAL) then
    Route.llm_analysis
  else Route.install

/-- Input slice of the workflow state read by `install_skills_node`:
extracted skill paths, the rule-engine decisions, and the parsed LLM
decision set (`none` models an absent or non-JSON `llm_analysis_result`,
which the node ignores). -/
structure InstallNodeInput where
  extractedSkills : List String
  ruleDecisions : List (String × String)
  llmDecisions : Option (List (String × String))
deriving Repr

/-- The merged `uninstall_skills` set of `install_skills_node`: names
marked `"uninstall"` by the rule engine or by the LLM decision set.  The
Python code uses a `set`; the embedding keeps a list whose membership is
the set membership (duplicates are harmless for every use below). -/
def uninstallSet (inp : InstallNodeInput) : List String :=
  ((inp.ruleDecisions.filter (fun d => d.2 = "uninstall")).map (fun d => d.1)) ++
  (((inp.llmDecisions.getD []).filter (fun d => d.2 = "uninstall")).map (fun d => d.1))

/-- Result of `install_skills_node`: the `installed`, `failed` and
`skipped` name lists, plus the list of paths the node actually passed to
the `skill_manager.py install` subprocess (instrumentation used to state
that skipped skills never reach the installer). -/
structure InstallNodeResult where
  installed : List String
  failed : List String
  skipped : List String
  installerCalls : List String
deriving DecidableEq, Repr

/-- `install_skills_node(state)`: `skipped` is the merged uninstall set;
every other extracted path is handed to the installer subprocess and
recorded in `installed` or `failed` by its basename according to the
subprocess exit code (`installer p = true` models exit code 0).
`installNodeStep` is one iteration of the node's loop over
`extracted_skills`. -/
def installNodeStep (installer : String → Bool) (unins : List String)
    (acc : InstallNodeResult) (p : String) : InstallNodeResult :=
  let name := pathName p
  if name ∈ unins then acc
  else if installer p then
    { acc with installed := acc.installed ++ [name],
               installerCalls := acc.installerCalls ++ [p] }
  else
    { acc with failed := acc.failed ++ [name],
               installerCalls := acc.installerCalls ++ [p] }

def install_skills_node (installer : String → Bool) (inp : InstallNodeInput) :
    InstallNodeResult :=
  let unins := uninstallSet inp
  inp.extractedSkills.foldl (installNodeStep installer unins) ⟨[], [], unins, []⟩

/-- Exit-code computation at the end of `main` in
`bin/skill_install_workflow.py`: `0` when at least one skill installed,
else `1` when some install failed, else `1` when an `[ERROR]` log line
exists, else `0`. -/
def mainExitCode (installed failed : List String) (hasError : Bool) : Nat :=
  if installed.length > 0 then 0
  else if failed.length > 0 then 1
  else if hasError then 1
  else 0

/-! ## Installer (`bin/skill_manager.py`, `SkillInstaller.install`) -/

/-- Outcome of `SkillInstaller._sync_skill_to_db`: returned `True`,
returned `False`, or raised. -/
inductive DbSync where
  | ok
  | failed
  | throws
deriving DecidableEq, Repr

/-- Environment of one `SkillInstaller.install` call: the results of the
two validations, whether the target directory already exists under the
registry, whether `shutil.copytree` raises, and the metadata-store
outcome.  Directory removals (`shutil.rmtree`) are modelled as
succeeding. -/
structure InstallEnv where
  structValid : Bool
  nameValid : Bool
  targetExists : Bool
  copyThrows : Bool
  dbSync : DbSync
deriving DecidableEq, Repr

/-- Observable outcome of `SkillInstaller.install`: the returned success
flag and whether the target directory exists after the call. -/
structure InstallOutcome where
  ok : Bool
  targetExistsAfter : Bool
deriving DecidableEq, Repr

/-- `SkillInstaller.install(skill_dir, force, ...)`:
(1) validate the skill structure, (2) validate the skill name, (3) fail
on an existing target unless `force` (in which case remove it), (4) copy
the tree, (5) sync the metadata store; on a sync `False` return or any
exception the just-copied target directory is removed before failure is
returned. -/
def SkillInstaller_install (env : InstallEnv) (force : Bool) : InstallOutcome :=
  if !env.structValid then ⟨false, env.targetExists⟩
  else if !env.nameValid then ⟨false, env.targetExists⟩
  else if env.targetExists && !force then ⟨false, true⟩
  else if env.copyThrows then ⟨false, false⟩
  else
    match env.dbSync with
    | DbSync.ok => ⟨true, true⟩
    | DbSync.failed => ⟨false, false⟩
    | DbSync.throws => ⟨false, false⟩

/-! ## Repository cache (`bin/clone_manager.py`, `RepoCacheManager`) -/

/-- Sidecar `.meta.json` contents of a cache directory. -/
structure CacheMeta where
  url : String
  cachedAt : String
  branch : String
deriving DecidableEq, Repr

/-- On-disk cache state: one entry per subdirectory of the cache root,
keyed by directory name; `none` in the second component models a
directory whose `.meta.json` is missing or unreadable
(`RepoCacheManager.load_meta` returning `None`). -/
structure CacheState where
  entries : List (String × Option CacheMeta)
deriving Repr

/-- `RepoCacheManager._sanitize_url`: strip the scheme, replace path
separators with `_`, truncate to 100 characters. -/
def sanitize_url (url : String) : String :=
  strTake (strReplace (strReplace (strReplace (strReplace url
    "https://" "") "http://" "") "/" "_") "\\" "_") 100

/-- Lookup of a cache directory by name: `none` when the directory does
not exist, `some m?` when it exists with metadata-load result `m?`. -/
def cacheDirLookup (st : CacheState) (dirName : String) :
    Option (Option CacheMeta) :=
  (st.entries.find? (fun e => e.1 = dirName)).map (fun e => e.2)

/-- Removal of a cache directory (the `rm -rf` pre-clean before a fresh
clone, modelled as succeeding). -/
def cacheDirRemove (st : CacheState) (dirName : String) : CacheState :=
  ⟨st.entries.filter (fun e => !(e.1 = dirName))⟩

/-- Observable outcome of `RepoCacheManager.get_or_clone`: success flag,
the repository path when available, the cache state afterwards, whether
the cached copy was used, and whether `GitHubHandler.clone_repo` was
invoked. -/
structure GetOrCloneResult where
  ok : Bool
  repoDir : Option String
  state : CacheState
  usedCache : Bool
  cloned : Bool

/-- The cache-validity test at the top of `get_or_clone`: the directory
exists, `force_refresh` is off, the metadata loads, and the recorded
`url` equals the query URL exactly. -/
def cacheHit (st : CacheState) (url : String) (forceRefresh : Bool) : Bool :=
  match cacheDirLookup st (sanitize_url url), forceRefresh with
  | some (some m), false => m.url == url
  | _, _ => false

/-- `RepoCacheManager.get_or_clone(github_url, force_refresh)`: on a
`cacheHit` the cached directory is returned; in every other case the old
directory is removed and a fresh clone is attempted (`cloneOk` models
the clone outcome), after which the metadata `(url, now, "main")` is
written. -/
def get_or_clone (st : CacheState) (url : String) (forceRefresh : Bool)
    (cloneOk : Bool) (now : String) : GetOrCloneResult :=
  let cacheDir := sanitize_url url
  if cacheHit st url forceRefresh then ⟨true, some cacheDir, st, true, false⟩
  else
    let st := cacheDirRemove st cacheDir
    if cloneOk then
      ⟨true, some cacheDir,
        ⟨st.entries ++ [(cacheDir, some ⟨url, now, "main"⟩)]⟩, false, true⟩
    else ⟨false, none, st, false, true⟩

/-- The source URL recorded in a cache directory's metadata, when the
directory exists and its metadata loads. -/
def recordedUrl (st : CacheState) (dirName : String) : Option String :=
  match cacheDirLookup st dirName with
  | some (some m) => some m.url
  | _ => none

/-- `RepoCacheManager.list_cache()`: one record per cache directory whose
metadata loads; directories without readable metadata are omitted.  Only
the recorded URL is kept (the size field is irrelevant here). -/
def list_cache (st : CacheState) : List String :=
  st.entries.filterMap (fun e => e.2.map (fun m => m.url))

/-- `RepoCacheManager.clear_cache(older_than_hours)`: with a threshold,
an entry is kept only when its metadata loads, its `cached_at` parses
(`age` is the parse-and-subtract oracle, `none` modelling a parse
exception) and its age is below the threshold; without a threshold every
directory is deleted.  `shutil.rmtree` is modelled as succeeding.
Returns the new state with the `cleared` and `kept` counters.
`clearCacheStep` is one iteration of the loop over cache directories. -/
def clearCacheStep (olderThanHours : Option Nat)
    (age : String → Option Nat) (acc : CacheState × Nat × Nat)
    (e : String × Option CacheMeta) : CacheState × Nat × Nat :=
  let shouldDelete :=
    match olderThanHours with
    | none => true
    | some h =>
      match e.2 with
      | some m =>
        match age m.cachedAt with
        | some a => !(a < h)
        | none => true
      | none => true
  if shouldDelete then (acc.1, acc.2.1 + 1, acc.2.2)
  else (⟨acc.1.entries ++ [e]⟩, acc.2.1, acc.2.2 + 1)

def clear_cache (st : CacheState) (olderThanHours : Option Nat)
    (age : String → Option Nat) : CacheState × Nat × Nat :=
  st.entries.foldl (clearCacheStep olderThanHours age) (⟨[]⟩, 0, 0)

/-! ## Skill discovery (`bin/clone_manager.py`, `GitHubHandler.extract_skills`)

A repository checkout is modelled as a tree of named entries.  Discovered
skills are reported as component lists starting with the repository
directory's own name, so that the last component always equals Python's
`skill_dir.name` (for the repository root itself the path is just the
repository name). -/

/-- One filesystem entry: a plain file or a directory with children. -/
inductive FsEntry where
  | file (name : String)
  | dir (name : String) (children : List FsEntry)
deriving Repr

/-- Name of an entry. -/
def FsEntry.name : FsEntry → String
  | FsEntry.file n => n
  | FsEntry.dir n _ => n

/-- `is_dir()` of an entry. -/
def FsEntry.isDir : FsEntry → Bool
  | FsEntry.file _ => false
  | FsEntry.dir _ _ => true

/-- Children of an entry (empty for plain files). -/
def FsEntry.childrenD : FsEntry → List FsEntry
  | FsEntry.file _ => []
  | FsEntry.dir _ cs => cs

/-- First entry with the given name in a directory listing. -/
def findFsEntry (es : List FsEntry) (n : String) : Option FsEntry :=
  es.find? (fun e => e.name == n)

/-- `(p / n).exists()`: the directory listing contains an entry named `n`. -/
def hasFsEntry (es : List FsEntry) (n : String) : Bool :=
  (findFsEntry es n).isSome

/-- Children of the subdirectory named `n`, or `none` when `n` is absent
or is a plain file (covers `.exists() and .is_dir()`). -/
def childDir (es : List FsEntry) (n : String) : Option (List FsEntry) :=
  match findFsEntry es n with
  | some (FsEntry.dir _ cs) => some cs
  | _ => none

/-- Descend along a path of directory names. -/
def dirAt (es : List FsEntry) : List String → Option (List FsEntry)
  | [] => some es
  | n :: p =>
    match childDir es n with
    | some cs => dirAt cs p
    | none => none

/-- A repository checkout: the directory's own name and its contents. -/
structure Repo where
  name : String
  children : List FsEntry

/-- The `exclude_dirs` set of `extract_skills`. -/
def excludeDirs : List String :=
  ["examples", "templates", "test", "tests", "docs", "reference"]

/-- The default exclusion set of `_recursive_skill_scan`. -/
def recursiveExclude : List String :=
  excludeDirs ++ [".git", "node_modules", "__pycache__"]

/-- Parents matched by `p.glob("*/SKILL.md")`: non-hidden child
directories containing an entry named `SKILL.md` (the `*` component of a
glob never matches a name starting with a dot). -/
def globChildSkillDirs (es : List FsEntry) : List FsEntry :=
  es.filter (fun e =>
    e.isDir && !strStartsWith e.name "." && hasFsEntry e.childrenD "SKILL.md")

/-- Scan of one priority-list location that is not the repository root
(lines 1084-1104): with 3 or more non-excluded skill subdirectories the
location is a multi-skill container and exactly those are returned;
otherwise every non-hidden (or `.claude`-named), non-excluded child
directory that has a `SKILL.md` or any non-hidden `*.md` entry is
collected. -/
def genericLocationScan (cs : List FsEntry) (locPath : List String) :
    List (List String) :=
  let candidates := cs.filter (fun e =>
    e.isDir && !(excludeDirs.contains e.name) && hasFsEntry e.childrenD "SKILL.md")
  if 3 ≤ candidates.length then
    candidates.map (fun e => locPath ++ [e.name])
  else
    let collected := cs.filter (fun e =>
      e.isDir && (!strStartsWith e.name "." || e.name == ".claude") &&
      !(excludeDirs.contains e.name) &&
      (hasFsEntry e.childrenD "SKILL.md" ||
        e.childrenD.any (fun c => strEndsWith c.name ".md" && !(strStartsWith c.name "."))))
    collected.map (fun e => locPath ++ [e.name])

/-- The loop iteration for the repository root itself (lines 1044-1104):
with a root-level `SKILL.md`, 3 or more non-hidden, non-excluded sibling
skill directories classify the root as a container (returning the
siblings), otherwise the root is the single skill; without a root
`SKILL.md` the `skills/` monorepo check (threshold 1), then the
root-sibling monorepo check (threshold 2), then the generic scan of the
root are tried in order. -/
def rootManifestSiblings (r : Repo) : List FsEntry :=
  (globChildSkillDirs r.children).filter (fun e => !(excludeDirs.contains e.name))

/-- Root-location branch of the priority loop; see the comment above
`rootManifestSiblings`, which is the counted `sub_skill_dirs` list. -/
def rootLocationScan (r : Repo) : List (List String) :=
  if hasFsEntry r.children "SKILL.md" then
    if 3 ≤ (rootManifestSiblings r).length then
      (rootManifestSiblings r).map (fun e => [e.name])
    else [[]]
  else
    let viaSkills : Option (List (List String)) :=
      match childDir r.children "skills" with
      | some scs =>
        let cand := scs.filter (fun e => e.isDir && hasFsEntry e.childrenD "SKILL.md")
        if 1 ≤ cand.length then some (cand.map (fun e => ["skills", e.name]))
        else none
      | none => none
    match viaSkills with
    | some res => res
    | none =>
      let rootSub := r.children.filter (fun e =>
        e.isDir && !strStartsWith e.name "." && !(excludeDirs.contains e.name) &&
        hasFsEntry e.childrenD "SKILL.md")
      if 2 ≤ rootSub.length then rootSub.map (fun e => [e.name])
      else genericLocationScan r.children []

/-- Scan of a non-root priority location when it exists and is a
directory, empty otherwise. -/
def locationScan (r : Repo) (path : List String) : List (List String) :=
  match dirAt r.children path with
  | some cs => genericLocationScan cs path
  | none => []

/-- The `for location in platform_priority[1:]` loop.  The loop has no
early exit: every existing location is scanned and its results are
concatenated.  The top-level `skills/` location is skipped inside the
loop (the `location.name == "skills" and location.parent == repo_dir`
`continue`) and only consulted through the root branch, so it is omitted
here. -/
def priorityScan (r : Repo) : List (List String) :=
  locationScan r [".claude", "skills"] ++
  locationScan r [".claude-plugin"] ++
  locationScan r [".cursor", "rules"] ++
  rootLocationScan r

/-- `_recursive_skill_scan`, fuelled by the remaining depth budget (the
Python function is called with `current_depth = 0` and stops when the
depth exceeds `max_depth = 5`, so the initial fuel is 6).  Excluded and
hidden names are skipped entirely; a directory containing `SKILL.md` is
recorded before its own children are scanned. -/
def scanRecursiveAux : Nat → List FsEntry → List String → List (List String)
  | 0, _, _ => []
  | _ + 1, [], _ => []
  | fuel + 1, FsEntry.file _ :: es, rel => scanRecursiveAux (fuel + 1) es rel
  | fuel + 1, FsEntry.dir n cs :: es, rel =>
    if recursiveExclude.contains n || strStartsWith n "." then
      scanRecursiveAux (fuel + 1) es rel
    else
      (if hasFsEntry cs "SKILL.md" then [rel ++ [n]] else []) ++
      scanRecursiveAux fuel cs (rel ++ [n]) ++
      scanRecursiveAux (fuel + 1) es rel

/-- Stable insertion into a list sorted by nesting depth (number of path
components, equal to the slash count plus one). -/
def insertByDepth (x : List String) : List (List String) → List (List String)
  | [] => [x]
  | y :: ys =>
    if y.length < x.length then y :: insertByDepth x ys
    else x :: y :: ys

/-- Stable sort by nesting depth, shallowest first (the
`sort(key=... .count('/'))` call on the recursive-scan results). -/
def sortByDepth : List (List String) → List (List String)
  | [] => []
  | x :: xs => insertByDepth x (sortByDepth xs)

/-- Fallback pass 2 (lines 1115-1123): non-hidden, non-excluded immediate
children of the root containing a `SKILL.md`. -/
def fallbackChildScan (r : Repo) : List (List String) :=
  (r.children.filter (fun e =>
    e.isDir && !strStartsWith e.name "." && !(excludeDirs.contains e.name) &&
    hasFsEntry e.childrenD "SKILL.md")).map (fun e => [e.name])

/-- The three-way name comparison of the `skill_name` filter (lines
1132-1134): case-insensitive exact match, or equality after normalizing
`_` to `-` on both sides, or equality of the directory name with `-`
normalized to `_` against the `_`-to-`-`-normalized target. -/
def matchesSkillName (skillName dirName : String) : Bool :=
  strToLower dirName == strToLower skillName ||
  strReplace (strToLower dirName) "_" "-" == strReplace (strToLower skillName) "_" "-" ||
  strReplace (strToLower dirName) "-" "_" == strReplace (strToLower skillName) "_" "-"

/-- Python's `skill_dir.name` for a discovered skill path. -/
def skillPathName (d : List String) : String :=
  d.getLast? |>.getD ""

/-- The `skill_name` filter at the end of `extract_skills` (lines
1125-1142): keep the matching entries, but when nothing matches log a
warning and return the whole discovered list unchanged. -/
def applySkillNameFilter (dirs : List (List String)) (sn : String) :
    List (List String) :=
  let filtered := dirs.filter (fun d => matchesSkillName sn (skillPathName d))
  if filtered.isEmpty then dirs else filtered

/-- Detection of a root-level skill pack: `repo_dir.glob("*.skill")` is
non-empty (non-hidden entries whose name ends in `.skill`). -/
def hasSkillPack (r : Repo) : Bool :=
  r.children.any (fun e =>
    strEndsWith e.name ".skill" && !strStartsWith e.name ".")

/-- The Claude Code detection (lines 1031-1036): skill subdirectories of
`.agent/skills` found through `glob("*/SKILL.md")`, minus excluded
names. -/
def agentSkills (r : Repo) : List FsEntry :=
  match dirAt r.children [".agent", "skills"] with
  | some cs => (globChildSkillDirs cs).filter
      (fun e => !(excludeDirs.contains e.name))
  | none => []

/-- `GitHubHandler.extract_skills(repo_dir, skill_name)`.

A root-level `*.skill` pack short-circuits everything (the unpack outcome
is the `packExtractOk` input; its result lands next to the repository).
Next, a non-empty `.agent/skills` directory returns exactly its skill
subdirectories, also before the name filter.  Otherwise the priority
locations are scanned (all of them, concatenating results), then the two
fallback passes run only if nothing was found, and finally the
`skill_name` filter is applied. -/
def discoveredDirs (r : Repo) : List (List String) :=
  let found := priorityScan r
  let found :=
    if found.isEmpty then sortByDepth (scanRecursiveAux 6 r.children [])
    else found
  if found.isEmpty then fallbackChildScan r else found

/-- See the contract comment above `discoveredDirs`, which is the
priority-plus-fallback part producing the unfiltered `skill_dirs`. -/
def extract_skills (r : Repo) (skillName : Option String)
    (packExtractOk : Bool) : List (List String) :=
  if hasSkillPack r then
    if packExtractOk then [[r.name ++ "_extracted"]] else []
  else
    if !(agentSkills r).isEmpty then
      (agentSkills r).map (fun e => [r.name, ".agent", "skills", e.name])
    else
      let dirs := (discoveredDirs r).map (fun p => r.name :: p)
      match skillName with
      | none => dirs
      | some sn => applySkillNameFilter dirs sn

/-! ## Claims -/

/-- C1: for every skill directory, if the metadata-store write fails
(returning `False` or raising) after the file copy into the registry has
succeeded, `SkillInstaller.install` deletes the just-copied target
directory before returning failure, so after the failed install the
target directory does not exist. -/
theorem C1_install_rollback (env : InstallEnv) (force : Bool)
    (hs : env.structValid = true) (hn : env.nameValid = true)
    (hpre : env.targetExists = false ∨ force = true)
    (hcopy : env.copyThrows = false) (hdb : env.dbSync ≠ DbSync.ok) :
    SkillInstaller_install env force = ⟨false, false⟩ := by
  rcases env with ⟨sv, nv, te, ct, db⟩
  cases sv <;> cases nv <;> cases te <;> cases ct <;> cases db <;>
    cases force <;> simp_all [SkillInstaller_install]

/-- C1 witness: a concrete install whose metadata sync returns `False`
after a successful copy fails and leaves no target directory. -/
theorem C1_install_rollback_witness :
    SkillInstaller_install ⟨true, true, false, false, DbSync.failed⟩ false =
      ⟨false, false⟩ :=
  C1_install_rollback ⟨true, true, false, false, DbSync.failed⟩ false rfl rfl
    (Or.inl rfl) rfl (by decide)

/-- C2 counterexample: a run where skill `repo/a` installs and `repo/b`
fails still exits with code 0, because `main` returns 0 whenever
`installed_skills` is non-empty, before ever looking at `failed_skills`.
The claim "if at least one skill's install fails, the exit code is
non-zero even when other skills installed successfully" is false. -/
theorem C2_counterexample :
    (install_skills_node (fun p => p == "repo/a")
        ⟨["repo/a", "repo/b"], [], none⟩).failed = ["b"] ∧
    mainExitCode
      (install_skills_node (fun p => p == "repo/a")
        ⟨["repo/a", "repo/b"], [], none⟩).installed
      (install_skills_node (fun p => p == "repo/a")
        ⟨["repo/a", "repo/b"], [], none⟩).failed
      false = 0 := by decide

/-- C2 amended: the workflow exit code is 0 iff at least one skill
installed successfully, or nothing failed and no error was logged;
equivalently, it is non-zero exactly when no skill installed and some
install failed or an error was logged.  A partial failure alongside one
success exits 0. -/
theorem C2_amended_exit_code (installed failed : List String)
    (hasError : Bool) :
    mainExitCode installed failed hasError = 0 ↔
      installed ≠ [] ∨ (failed = [] ∧ hasError = false) := by
  cases installed <;> cases failed <;> cases hasError <;>
    simp [mainExitCode]

/-- C8: after scanning, the workflow routes to the LLM review stage iff
at least one skill's scan result has severity `MEDIUM`, `HIGH` or
`CRITICAL`; with every result at `SAFE`, `LOW` or `UNKNOWN` (or any mix
below `MEDIUM`) it goes directly to the install stage.  This composes
the `threatened_skills` filter of `security_scan_node` (severity not in
`SAFE`/`LOW`) with `check_threat_level`. -/
theorem C8_scan_routing (results : List (String × ScanData)) :
    check_threat_level (threatenedOf results) = Route.llm_analysis ↔
      ∃ r ∈ results, r.2.severity = Severity.MEDIUM ∨
        r.2.severity = Severity.HIGH ∨ r.2.severity = Severity.CRITICAL := by
  have hkey : check_threat_level (threatenedOf results) = Route.llm_analysis ↔
      (threatenedOf results).any (fun t =>
        t.2.severity = Severity.MEDIUM || t.2.severity = Severity.HIGH ||
        t.2.severity = Severity.CRITICAL) = true := by
    unfold check_threat_level
    by_cases he : (threatenedOf results).isEmpty
    · rw [if_pos he]
      constructor
      · intro h; exact absurd h (by decide)
      · intro h
        rcases List.any_eq_true.mp h with ⟨t, ht, _⟩
        rw [List.isEmpty_iff] at he
        simp [he] at ht
    · rw [if_neg he]
      by_cases ha : (threatenedOf results).any (fun t =>
          t.2.severity = Severity.MEDIUM || t.2.severity = Severity.HIGH ||
          t.2.severity = Severity.CRITICAL) = true
      · simp [ha]
      · simp only [Bool.not_eq_true] at ha
        simp [ha]
  rw [hkey]
  simp only [List.any_eq_true, threatenedOf, List.mem_filter,
    Bool.or_eq_true, decide_eq_true_eq, Bool.not_eq_true']
  constructor
  · rintro ⟨t, ⟨ht, _⟩, hq⟩
    exact ⟨t, ht, by tauto⟩
  · rintro ⟨t, ht, hq⟩
    refine ⟨t, ⟨ht, ?_⟩, by tauto⟩
    rcases hq with h | h | h <;> simp [h]

/-- Helper for C7: one loop iteration of `install_skills_node` preserves
the facts that a name from the uninstall set is recorded in `skipped`,
absent from `installed` and `failed`, and never passed to the installer
subprocess. -/
theorem installNodeStep_preserves (installer : String → Bool)
    (unins : List String) (name : String) (hmem : name ∈ unins)
    (acc : InstallNodeResult) (p : String)
    (h1 : name ∈ acc.skipped) (h2 : name ∉ acc.installed)
    (h3 : name ∉ acc.failed)
    (h4 : ∀ q ∈ acc.installerCalls, pathName q ≠ name) :
    name ∈ (installNodeStep installer unins acc p).skipped ∧
    name ∉ (installNodeStep installer unins acc p).installed ∧
    name ∉ (installNodeStep installer unins acc p).failed ∧
    ∀ q ∈ (installNodeStep installer unins acc p).installerCalls,
      pathName q ≠ name := by
  unfold installNodeStep
  by_cases hp : pathName p ∈ unins
  · simp only [if_pos hp]
    exact ⟨h1, h2, h3, h4⟩
  · have hne : pathName p ≠ name := fun h => hp (h ▸ hmem)
    have hcalls : ∀ q ∈ acc.installerCalls ++ [p], pathName q ≠ name := by
      intro q hq
      rcases List.mem_append.mp hq with h | h
      · exact h4 q h
      · rw [List.mem_singleton.mp h]; exact hne
    simp only [if_neg hp]
    by_cases hi : installer p = true
    · simp only [if_pos hi]
      refine ⟨h1, ?_, h3, hcalls⟩
      intro h
      rcases List.mem_append.mp h with h | h
      · exact h2 h
      · exact hne (List.mem_singleton.mp h).symm
    · simp only [if_neg hi]
      refine ⟨h1, h2, ?_, hcalls⟩
      intro h
      rcases List.mem_append.mp h with h | h
      · exact h3 h
      · exact hne (List.mem_singleton.mp h).symm

/-- Helper for C7: the invariant of `installNodeStep_preserves` carries
through the whole fold of `install_skills_node`. -/
theorem installNode_foldl_invariant (installer : String → Bool)
    (unins : List String) (name : String) (hmem : name ∈ unins)
    (ps : List String) (acc : InstallNodeResult)
    (h1 : name ∈ acc.skipped) (h2 : name ∉ acc.installed)
    (h3 : name ∉ acc.failed)
    (h4 : ∀ q ∈ acc.installerCalls, pathName q ≠ name) :
    name ∈ (ps.foldl (installNodeStep installer unins) acc).skipped ∧
    name ∉ (ps.foldl (installNodeStep installer unins) acc).installed ∧
    name ∉ (ps.foldl (installNodeStep installer unins) acc).failed ∧
    ∀ q ∈ (ps.foldl (installNodeStep installer unins) acc).installerCalls,
      pathName q ≠ name := by
  induction ps generalizing acc with
  | nil => exact ⟨h1, h2, h3, h4⟩
  | cons p ps ih =>
    simp only [List.foldl_cons]
    have hstep := installNodeStep_preserves installer unins name hmem acc p
      h1 h2 h3 h4
    exact ih _ hstep.1 hstep.2.1 hstep.2.2.1 hstep.2.2.2

/-- C7: every skill marked `uninstall` by either decision source (the
rule engine or the LLM decision set) is recorded as skipped by
`install_skills_node`, lands in neither `installed` nor `failed`, and is
never passed to the installer subprocess — even when the other source
maps the same name to `keep`, because the node only collects `uninstall`
markings and nothing ever removes a name from that set. -/
theorem C7_uninstall_precedence (installer : String → Bool)
    (inp : InstallNodeInput) (name : String)
    (h : (name, "uninstall") ∈ inp.ruleDecisions ∨
         (name, "uninstall") ∈ inp.llmDecisions.getD []) :
    name ∈ (install_skills_node installer inp).skipped ∧
    name ∉ (install_skills_node installer inp).installed ∧
    name ∉ (install_skills_node installer inp).failed ∧
    ∀ p ∈ (install_skills_node installer inp).installerCalls,
      pathName p ≠ name := by
  have hmem : name ∈ uninstallSet inp := by
    unfold uninstallSet
    rcases h with h | h
    · exact List.mem_append_left _
        (List.mem_map.mpr ⟨(name, "uninstall"),
          List.mem_filter.mpr ⟨h, by simp⟩, rfl⟩)
    · exact List.mem_append_right _
        (List.mem_map.mpr ⟨(name, "uninstall"),
          List.mem_filter.mpr ⟨h, by simp⟩, rfl⟩)
  unfold install_skills_node
  exact installNode_foldl_invariant installer (uninstallSet inp) name hmem
    inp.extractedSkills ⟨[], [], uninstallSet inp, []⟩ hmem
    (by simp) (by simp) (by simp)

/-- C7 witness: with the rule engine marking `a` as `uninstall` and the
LLM decision set marking the same `a` as `keep`, the node still skips
`a` and does not install it. -/
theorem C7_uninstall_precedence_witness :
    "a" ∈ (install_skills_node (fun _ => true)
      ⟨["repo/a", "repo/b"], [("a", "uninstall")],
        some [("a", "keep")]⟩).skipped ∧
    "a" ∉ (install_skills_node (fun _ => true)
      ⟨["repo/a", "repo/b"], [("a", "uninstall")],
        some [("a", "keep")]⟩).installed := by
  have h := C7_uninstall_precedence (fun _ => true)
    ⟨["repo/a", "repo/b"], [("a", "uninstall")], some [("a", "keep")]⟩ "a"
    (Or.inl (by simp))
  exact ⟨h.1, h.2.1⟩

/-- Helper for C9: a positive `cacheHit` means the stored metadata
records exactly the queried URL. -/
theorem cacheHit_recordedUrl (st : CacheState) (url : String)
    (force : Bool) (h : cacheHit st url force = true) :
    recordedUrl st (sanitize_url url) = some url := by
  unfold cacheHit at h
  unfold recordedUrl
  rcases hl : cacheDirLookup st (sanitize_url url) with - | m? <;>
    rw [hl] at h
  · cases force <;> exact Bool.noConfusion h
  · rcases m? with - | m
    · cases force <;> exact Bool.noConfusion h
    · cases force
      · exact congrArg some (beq_iff_eq.mp h)
      · exact Bool.noConfusion h

/-- Helper for C9: with no age threshold, every `clear_cache` iteration
deletes its directory and keeps the accumulated state empty. -/
theorem clear_cache_all_empty (age : String → Option Nat)
    (l : List (String × Option CacheMeta)) :
    ∀ c k : Nat,
      (l.foldl (clearCacheStep none age) (⟨[]⟩, c, k)).1 =
        (⟨[]⟩ : CacheState) := by
  induction l with
  | nil => intro c k; rfl
  | cons e es ih =>
    intro c k
    simp only [List.foldl_cons]
    exact ih (c + 1) k

/-- C9: a `get_or_clone` lookup uses the cached copy only when the cache
directory's recorded source URL exactly equals the queried URL; whenever
the recorded URL differs or no metadata is readable (or the directory is
absent), the cache is not used and a fresh clone is attempted instead;
and clearing the whole cache leaves `list_cache` empty. -/
theorem C9_cache_correctness :
    (∀ (st : CacheState) (url : String) (force cloneOk : Bool)
        (now : String),
      (get_or_clone st url force cloneOk now).usedCache = true →
        recordedUrl st (sanitize_url url) = some url) ∧
    (∀ (st : CacheState) (url : String) (force cloneOk : Bool)
        (now : String),
      recordedUrl st (sanitize_url url) ≠ some url →
        (get_or_clone st url force cloneOk now).usedCache = false ∧
        (get_or_clone st url force cloneOk now).cloned = true) ∧
    (∀ (st : CacheState) (age : String → Option Nat),
      list_cache (clear_cache st none age).1 = []) := by
  refine ⟨?_, ?_, ?_⟩
  · intro st url force cloneOk now h
    unfold get_or_clone at h
    by_cases hh : cacheHit st url force = true
    · exact cacheHit_recordedUrl st url force hh
    · rw [if_neg hh] at h
      cases cloneOk <;> simp_all
  · intro st url force cloneOk now h
    have hh : cacheHit st url force = false := by
      by_contra hc
      rw [Bool.not_eq_false] at hc
      exact h (cacheHit_recordedUrl st url force hc)
    unfold get_or_clone
    rw [if_neg (by simp [hh])]
    cases cloneOk <;> simp
  · intro st age
    unfold clear_cache
    rw [clear_cache_all_empty age st.entries 0 0]
    rfl

/-- C9 witness: a concrete state holding the exact entry produces a hit
whose recorded URL is the query, and clearing a concrete two-entry cache
leaves the listing empty. -/
theorem C9_cache_correctness_witness :
    recordedUrl
      (⟨[("github.com_u_r", some ⟨"https://github.com/u/r", "t0", "main"⟩)]⟩)
      (sanitize_url "https://github.com/u/r") = some "https://github.com/u/r" ∧
    list_cache
      (clear_cache
        (⟨[("d1", some ⟨"u1", "t1", "main"⟩), ("d2", none)]⟩)
        none (fun _ => none)).1 = [] := by
  constructor
  · exact C9_cache_correctness.1
      (⟨[("github.com_u_r", some ⟨"https://github.com/u/r", "t0", "main"⟩)]⟩)
      "https://github.com/u/r" false true "t1" (by decide)
  · exact C9_cache_correctness.2.2
      (⟨[("d1", some ⟨"u1", "t1", "main"⟩), ("d2", none)]⟩) (fun _ => none)

/-- Repository used as C3's concrete input: a `skills/` monorepo with
two skills `alpha` and `beta`, neither matching the requested name. -/
def c3Repo : Repo := ⟨"r",
  [FsEntry.dir "skills"
    [FsEntry.dir "alpha" [FsEntry.file "SKILL.md"],
     FsEntry.dir "beta" [FsEntry.file "SKILL.md"]]]⟩

/-- C3 counterexample: requesting skill name `gamma`, which matches no
discovered candidate, makes `extract_skills` return the whole discovered
set (`alpha` and `beta`) unchanged — not an error listing the available
names.  (The code also has no substring pass at all: the filter tests
only exact and `-`/`_`-normalized equality, lines 1132-1134.)  This
falsifies the claim that a no-match run returns an error rather than the
whole set. -/
theorem C3_counterexample :
    (extract_skills c3Repo none true).filter
      (fun d => matchesSkillName "gamma" (skillPathName d)) = [] ∧
    extract_skills c3Repo (some "gamma") true =
      [["r", "skills", "alpha"], ["r", "skills", "beta"]] := by decide

/-- C3 amended: the discovered set is filtered by case-insensitive exact
match or by a normalized match treating `-` and `_` as equivalent (there
is no substring pass); when no candidate matches, the whole discovered
set is returned unchanged (with a logged warning), not an error. -/
theorem C3_amended_name_filter (dirs : List (List String)) (sn : String) :
    ((∃ d ∈ dirs, matchesSkillName sn (skillPathName d) = true) →
      applySkillNameFilter dirs sn =
        dirs.filter (fun d => matchesSkillName sn (skillPathName d))) ∧
    ((∀ d ∈ dirs, matchesSkillName sn (skillPathName d) = false) →
      applySkillNameFilter dirs sn = dirs) := by
  constructor
  · rintro ⟨d, hd, hm⟩
    have hmem : d ∈ dirs.filter
        (fun d => matchesSkillName sn (skillPathName d)) :=
      List.mem_filter.mpr ⟨hd, hm⟩
    unfold applySkillNameFilter
    rw [if_neg]
    intro hemp
    rw [List.isEmpty_iff] at hemp
    rw [hemp] at hmem
    exact absurd hmem (List.not_mem_nil d)
  · intro hall
    have hfil : dirs.filter
        (fun d => matchesSkillName sn (skillPathName d)) = [] := by
      rw [List.filter_eq_nil_iff]
      intro d hd
      simp [hall d hd]
    unfold applySkillNameFilter
    rw [hfil]
    rfl

/-- C3 amended witness: a matching name keeps exactly the matches, and a
non-matching name returns the input unchanged. -/
theorem C3_amended_name_filter_witness :
    applySkillNameFilter [["r", "alpha"], ["r", "beta"]] "ALPHA" =
      [["r", "alpha"]] ∧
    applySkillNameFilter [["r", "beta"]] "alpha" = [["r", "beta"]] := by
  constructor
  · have h := (C3_amended_name_filter [["r", "alpha"], ["r", "beta"]] "ALPHA").1
      ⟨["r", "alpha"], by decide, by decide⟩
    rw [h]; decide
  · exact (C3_amended_name_filter [["r", "beta"]] "alpha").2 (by decide)

/-- Repository used as C4's concrete input: `.claude/skills/a` is a
skill, and the repository root also holds a sibling skill `b`. -/
def c4Repo : Repo := ⟨"r",
  [FsEntry.dir ".claude"
    [FsEntry.dir "skills" [FsEntry.dir "a" [FsEntry.file "SKILL.md"]]],
   FsEntry.dir "b" [FsEntry.file "SKILL.md"]]⟩

/-- C4 counterexample: although the `.claude/skills` location exists and
yields skill `a`, discovery also scans the repository root and returns
`b` from it — the priority loop has no early exit, so lower-priority
locations do contribute results, falsifying the first-existing-location
rule. -/
theorem C4_counterexample :
    (dirAt c4Repo.children [".claude", "skills"]).isSome = true ∧
    extract_skills c4Repo none true =
      [["r", ".claude", "skills", "a"], ["r", "b"]] := by decide

/-- C4 amended: only the agent-specific `.agent/skills` location
short-circuits discovery — when it holds at least one skill
subdirectory (and no `.skill` pack sits at the root), discovery returns
exactly those skills and nothing else, not even applying the name
filter; every other existing location in the priority list is scanned
and may contribute results (shown by the counterexample). -/
theorem C4_amended_agent_priority (r : Repo) (sn : Option String)
    (packOk : Bool) (hpack : hasSkillPack r = false)
    (hagent : (agentSkills r).isEmpty = false) :
    extract_skills r sn packOk =
      (agentSkills r).map (fun e => [r.name, ".agent", "skills", e.name]) := by
  unfold extract_skills
  rw [if_neg (by simp [hpack]), if_pos (by simp [hagent])]

/-- C4 amended witness: a repository with `.agent/skills/z` and a root
sibling skill returns only `z`, even under a non-matching name filter. -/
theorem C4_amended_agent_priority_witness :
    extract_skills
      ⟨"r", [FsEntry.dir ".agent"
        [FsEntry.dir "skills" [FsEntry.dir "z" [FsEntry.file "SKILL.md"]]],
        FsEntry.dir "b" [FsEntry.file "SKILL.md"]]⟩
      (some "nomatch") true = [["r", ".agent", "skills", "z"]] := by
  rw [C4_amended_agent_priority _ (some "nomatch") true (by decide) (by decide)]
  decide

/-- Repository used as C5's concrete input: the root has a `SKILL.md`
and exactly three manifest-bearing siblings `s1`, `s2`, `s3`, but also a
`.claude/skills/x` skill. -/
def c5Repo : Repo := ⟨"r",
  [FsEntry.file "SKILL.md",
   FsEntry.dir ".claude"
     [FsEntry.dir "skills" [FsEntry.dir "x" [FsEntry.file "SKILL.md"]]],
   FsEntry.dir "s1" [FsEntry.file "SKILL.md"],
   FsEntry.dir "s2" [FsEntry.file "SKILL.md"],
   FsEntry.dir "s3" [FsEntry.file "SKILL.md"]]⟩

/-- C5 counterexample: a repository whose root contains a manifest and
exactly the three manifest-bearing siblings `s1`, `s2`, `s3` — yet
discovery does not return exactly those siblings: the `.claude/skills`
location contributes an extra entry `x`, falsifying "discovery returns
exactly those sibling directories". -/
theorem C5_counterexample :
    hasFsEntry c5Repo.children "SKILL.md" = true ∧
    (rootManifestSiblings c5Repo).map (fun e => ["r", e.name]) =
      [["r", "s1"], ["r", "s2"], ["r", "s3"]] ∧
    extract_skills c5Repo none true =
      [["r", ".claude", "skills", "x"],
       ["r", "s1"], ["r", "s2"], ["r", "s3"]] := by decide

/-- Helper for C5: when the three non-root priority locations contribute
nothing, the priority loop's output is the root-location branch alone. -/
theorem priorityScan_root_only (r : Repo)
    (h1 : locationScan r [".claude", "skills"] = [])
    (h2 : locationScan r [".claude-plugin"] = [])
    (h3 : locationScan r [".cursor", "rules"] = []) :
    priorityScan r = rootLocationScan r := by
  unfold priorityScan
  rw [h1, h2, h3]
  rfl

/-- C5 amended: restricted to layouts where the repository root is the
only contributing location (no `.skill` pack, no `.agent/skills` skills,
and the `.claude/skills`, `.claude-plugin` and `.cursor/rules` locations
contribute nothing) and no name filter is given: when the root contains
a manifest, 3 or more non-hidden, non-excluded manifest-bearing sibling
directories make discovery return exactly those siblings and not the
root, while 2 or fewer make it return the root itself as the single
skill. -/
theorem C5_amended_root_container_threshold (r : Repo) (packOk : Bool)
    (hpack : hasSkillPack r = false)
    (hagent : (agentSkills r).isEmpty = true)
    (h1 : locationScan r [".claude", "skills"] = [])
    (h2 : locationScan r [".claude-plugin"] = [])
    (h3 : locationScan r [".cursor", "rules"] = [])
    (hroot : hasFsEntry r.children "SKILL.md" = true) :
    (3 ≤ (rootManifestSiblings r).length →
      extract_skills r none packOk =
        (rootManifestSiblings r).map (fun e => [r.name, e.name]) ∧
      [r.name] ∉ extract_skills r none packOk) ∧
    ((rootManifestSiblings r).length < 3 →
      extract_skills r none packOk = [[r.name]]) := by
  have hps := priorityScan_root_only r h1 h2 h3
  have hextract : extract_skills r none packOk =
      (discoveredDirs r).map (fun p => r.name :: p) := by
    unfold extract_skills
    rw [if_neg (by simp [hpack]), if_neg (by simp [hagent])]
  constructor
  · intro hge
    have hrls : rootLocationScan r =
        (rootManifestSiblings r).map (fun e => [e.name]) := by
      unfold rootLocationScan
      rw [if_pos (by simp [hroot]), if_pos hge]
    have hpe : (priorityScan r).isEmpty = false := by
      rw [hps, hrls]
      rcases hrm : rootManifestSiblings r with - | ⟨a, l⟩
      · rw [hrm] at hge; simp at hge
      · simp
    have hdd : discoveredDirs r =
        (rootManifestSiblings r).map (fun e => [e.name]) := by
      unfold discoveredDirs
      simp only [hpe, Bool.false_eq_true, if_false]
      rw [hps, hrls]
    rw [hextract, hdd, List.map_map]
    constructor
    · rfl
    · intro hmem
      rcases List.mem_map.mp hmem with ⟨e, -, heq⟩
      simp at heq
  · intro hlt
    have hrls : rootLocationScan r = [[]] := by
      unfold rootLocationScan
      rw [if_pos (by simp [hroot]), if_neg (by omega)]
    have hpe : (priorityScan r).isEmpty = false := by
      rw [hps, hrls]; rfl
    have hdd : discoveredDirs r = [[]] := by
      unfold discoveredDirs
      simp only [hpe, Bool.false_eq_true, if_false]
      rw [hps, hrls]
    rw [hextract, hdd]
    rfl

/-- C5 amended witness: with three manifest siblings the three are
returned (container classification); with two, the root itself is the
single skill. -/
theorem C5_amended_root_container_threshold_witness :
    extract_skills
      ⟨"r", [FsEntry.file "SKILL.md",
        FsEntry.dir "s1" [FsEntry.file "SKILL.md"],
        FsEntry.dir "s2" [FsEntry.file "SKILL.md"],
        FsEntry.dir "s3" [FsEntry.file "SKILL.md"]]⟩ none true =
      [["r", "s1"], ["r", "s2"], ["r", "s3"]] ∧
    extract_skills
      ⟨"r", [FsEntry.file "SKILL.md",
        FsEntry.dir "s1" [FsEntry.file "SKILL.md"],
        FsEntry.dir "s2" [FsEntry.file "SKILL.md"]]⟩ none true =
      [["r"]] := by
  constructor
  · have h := (C5_amended_root_container_threshold
      ⟨"r", [FsEntry.file "SKILL.md",
        FsEntry.dir "s1" [FsEntry.file "SKILL.md"],
        FsEntry.dir "s2" [FsEntry.file "SKILL.md"],
        FsEntry.dir "s3" [FsEntry.file "SKILL.md"]]⟩ true
      (by decide) (by decide) (by decide) (by decide) (by decide)
      (by decide)).1 (by decide)
    rw [h.1]; decide
  · exact (C5_amended_root_container_threshold
      ⟨"r", [FsEntry.file "SKILL.md",
        FsEntry.dir "s1" [FsEntry.file "SKILL.md"],
        FsEntry.dir "s2" [FsEntry.file "SKILL.md"]]⟩ true
      (by decide) (by decide) (by decide) (by decide) (by decide)
      (by decide)).2 (by decide)

/-- Helper for C6: inserting only fresh, pairwise-distinct keys turns
the `batch_scan` fold into a plain map over the directory list. -/
theorem foldl_dictInsert_fresh (f : String → ScanData) :
    ∀ (ds : List String) (m : List (String × ScanData)),
      (∀ d ∈ ds, ∀ q ∈ m, q.1 ≠ pathName d) →
      (ds.map pathName).Nodup →
      ds.foldl (fun acc d => dictInsert acc (pathName d) (f d)) m =
        m ++ ds.map (fun d => (pathName d, f d)) := by
  intro ds
  induction ds with
  | nil => intro m _ _; simp
  | cons d ds ih =>
    intro m hfresh hnodup
    have hnodup' := hnodup
    rw [List.map_cons, List.nodup_cons] at hnodup'
    simp only [List.foldl_cons]
    have hins : dictInsert m (pathName d) (f d) = m ++ [(pathName d, f d)] := by
      unfold dictInsert
      rw [if_neg]
      intro hany
      rcases List.any_eq_true.mp hany with ⟨q, hq, hqe⟩
      exact hfresh d (List.mem_cons_self d ds) q hq (by simpa using hqe)
    rw [hins, ih (m ++ [(pathName d, f d)]) ?_ hnodup'.2]
    · simp
    · intro d' hd' q hq
      rcases List.mem_append.mp hq with h | h
      · exact hfresh d' (List.mem_cons_of_mem _ hd') q h
      · rw [List.mem_singleton.mp h]
        show (pathName d, f d).1 ≠ pathName d'
        simp only
        intro heq
        apply hnodup'.1
        rw [heq]
        exact List.mem_map_of_mem pathName hd'

/-- Helper for C6: looking up a directory's basename in the mapped
result list returns that directory's own entry when the basenames are
pairwise distinct. -/
theorem lookup_map_pathName (f : String → ScanData) :
    ∀ (ds : List String), (ds.map pathName).Nodup →
      ∀ d ∈ ds,
        (ds.map (fun d => (pathName d, f d))).lookup (pathName d) =
          some (f d) := by
  intro ds
  induction ds with
  | nil => intro _ d hd; exact absurd hd (List.not_mem_nil d)
  | cons a t ih =>
    intro hnodup d hd
    have hnodup' := hnodup
    rw [List.map_cons, List.nodup_cons] at hnodup'
    rcases List.mem_cons.mp hd with rfl | hdt
    · simp [List.lookup]
    · have hne : (pathName d == pathName a) = false := by
        rw [beq_eq_false_iff_ne]
        intro he
        exact hnodup'.1 (he ▸ List.mem_map_of_mem pathName hdt)
      simp only [List.map_cons, List.lookup, hne]
      exact ih hnodup'.2 d hdt

/-- C6 counterexample: two skill directories `a/x` and `b/x` share the
basename `x`, so even with the scanner throwing for exactly one of them
the batch returns a single result, not one per input — the claim's
"returns n results" fails because the result dictionary is keyed by
basename. -/
theorem C6_counterexample :
    (fun d => if d == "a/x" then ScanOutcome.throws "boom"
      else ScanOutcome.ok ⟨"success", Severity.SAFE, 0⟩) "a/x" =
        ScanOutcome.throws "boom" ∧
    (batch_scan
      (fun d => if d == "a/x" then ScanOutcome.throws "boom"
        else ScanOutcome.ok ⟨"success", Severity.SAFE, 0⟩)
      true ["a/x", "b/x"]).length = 1 := by decide

/-- C6 amended: restricted to directory lists with pairwise-distinct
basenames: when the scanner throws for exactly one of n > 1 skill
directories, `batch_scan` returns n results, the failing directory's
entry is `status "error"` with severity `UNKNOWN`, every other
directory's entry is the same one a solo `batch_scan` of just that
directory produces, and no exception escapes (the model is a total
function because the `except` branch converts the throw). -/
theorem C6_amended_scan_isolation (scanner : String → ScanOutcome)
    (a b : String) (t : List String) (d0 msg : String)
    (hnodup : ((a :: b :: t).map pathName).Nodup)
    (hd0 : d0 ∈ a :: b :: t)
    (hthrow : scanner d0 = ScanOutcome.throws msg)
    (_hothers : ∀ d ∈ a :: b :: t, d ≠ d0 →
      ∃ rd, scanner d = ScanOutcome.ok rd) :
    (batch_scan scanner true (a :: b :: t)).length =
      (a :: b :: t).length ∧
    (batch_scan scanner true (a :: b :: t)).lookup (pathName d0) =
      some errorScanData ∧
    ∀ d ∈ a :: b :: t, d ≠ d0 →
      (batch_scan scanner true (a :: b :: t)).lookup (pathName d) =
        (batch_scan scanner true [d]).lookup (pathName d) := by
  have hb : batch_scan scanner true (a :: b :: t) =
      (a :: b :: t).map
        (fun d => (pathName d, outcomeToData (scanner d))) := by
    have := foldl_dictInsert_fresh (fun d => outcomeToData (scanner d))
      (a :: b :: t) [] (by intro d _ q hq; exact absurd hq (List.not_mem_nil q))
      hnodup
    simpa using this
  refine ⟨by rw [hb]; simp, ?_, ?_⟩
  · rw [hb, lookup_map_pathName _ _ hnodup d0 hd0, hthrow]
    rfl
  · intro d hd hne
    rw [hb, lookup_map_pathName _ _ hnodup d hd]
    show _ = ([(pathName d, outcomeToData (scanner d))]).lookup (pathName d)
    simp [List.lookup]

/-- C6 amended witness: with distinct basenames `x` and `y` and the
scanner throwing only on `a/x`, the batch has 2 entries and the failing
one is the error result. -/
theorem C6_amended_scan_isolation_witness :
    (batch_scan
      (fun d => if d == "a/x" then ScanOutcome.throws "boom"
        else ScanOutcome.ok ⟨"success", Severity.SAFE, 0⟩)
      true ["a/x", "b/y"]).length = 2 ∧
    (batch_scan
      (fun d => if d == "a/x" then ScanOutcome.throws "boom"
        else ScanOutcome.ok ⟨"success", Severity.SAFE, 0⟩)
      true ["a/x", "b/y"]).lookup (pathName "a/x") = some errorScanData := by
  have h := C6_amended_scan_isolation
    (fun d => if d == "a/x" then ScanOutcome.throws "boom"
      else ScanOutcome.ok ⟨"success", Severity.SAFE, 0⟩)
    "a/x" "b/y" [] "a/x" "boom" (by decide) (by decide) (by decide)
    (by
      intro d hd hne
      refine ⟨⟨"success", Severity.SAFE, 0⟩, ?_⟩
      have hb : (d == "a/x") = false := by
        rw [beq_eq_false_iff_ne]; exact hne
      simp [hb])
  exact ⟨h.1, h.2.1⟩

/-- Helper for C10: a false `any`-key test means the key is absent from
the dictionary's key list. -/
theorem any_key_eq_false_iff (m : List (String × ScanData)) (k : String) :
    m.any (fun p => p.1 = k) = false ↔ k ∉ m.map Prod.fst := by
  rw [← Bool.not_eq_true, List.any_eq_true]
  simp [List.mem_map]

/-- Helper for C10: overwriting an existing key leaves the dictionary's
key list unchanged. -/
theorem dictInsert_keys_overwrite (m : List (String × ScanData))
    (k : String) (v : ScanData)
    (h : m.any (fun p => p.1 = k) = true) :
    (dictInsert m k v).map Prod.fst = m.map Prod.fst := by
  unfold dictInsert
  rw [if_pos h, List.map_map]
  apply List.map_congr_left
  intro p hp
  by_cases hpk : p.1 = k
  · simp [hpk]
  · simp [hpk]

/-- Helper for C10: inserting a fresh key appends it to the dictionary's
key list. -/
theorem dictInsert_keys_fresh (m : List (String × ScanData))
    (k : String) (v : ScanData)
    (h : m.any (fun p => p.1 = k) = false) :
    (dictInsert m k v).map Prod.fst = m.map Prod.fst ++ [k] := by
  unfold dictInsert
  rw [if_neg (by simp [h]), List.map_append]
  rfl

/-- Helper for C10: the key list of the `batch_scan` fold stays
duplicate-free and draws only from the starting keys and the input
basenames. -/
theorem foldl_dictInsert_keys (f : String → ScanData) :
    ∀ (ds : List String) (m : List (String × ScanData)),
      (m.map Prod.fst).Nodup →
      ((ds.foldl (fun acc d => dictInsert acc (pathName d) (f d)) m).map
          Prod.fst).Nodup ∧
      ∀ x ∈ (ds.foldl (fun acc d => dictInsert acc (pathName d) (f d)) m).map
          Prod.fst, x ∈ m.map Prod.fst ∨ x ∈ ds.map pathName := by
  intro ds
  induction ds with
  | nil => intro m h; exact ⟨h, fun x hx => Or.inl hx⟩
  | cons d ds ih =>
    intro m h
    simp only [List.foldl_cons]
    by_cases hc : m.any (fun p => p.1 = pathName d) = true
    · have hkeys := dictInsert_keys_overwrite m (pathName d) (f d) hc
      obtain ⟨hnodup, hmem⟩ := ih (dictInsert m (pathName d) (f d))
        (by rw [hkeys]; exact h)
      refine ⟨hnodup, fun x hx => ?_⟩
      rcases hmem x hx with hm | hm
      · rw [hkeys] at hm; exact Or.inl hm
      · exact Or.inr (List.mem_cons_of_mem _ hm)
    · rw [Bool.not_eq_true] at hc
      have hkeys := dictInsert_keys_fresh m (pathName d) (f d) hc
      have hfresh : pathName d ∉ m.map Prod.fst :=
        (any_key_eq_false_iff m (pathName d)).mp hc
      obtain ⟨hnodup, hmem⟩ := ih (dictInsert m (pathName d) (f d))
        (by
          rw [hkeys, List.nodup_append]
          exact ⟨h, List.nodup_singleton _,
            fun a ha hb => hfresh ((List.mem_singleton.mp hb) ▸ ha)⟩)
      refine ⟨hnodup, fun x hx => ?_⟩
      rcases hmem x hx with hm | hm
      · rw [hkeys] at hm
        rcases List.mem_append.mp hm with hm | hm
        · exact Or.inl hm
        · rw [List.mem_singleton.mp hm]
          exact Or.inr (List.mem_cons_self _ _)
      · exact Or.inr (List.mem_cons_of_mem _ hm)

/-- Helper for C10: looking up the overwritten key in the overwrite
branch of `dictInsert` yields the new value. -/
theorem lookup_map_overwrite (k' : String) (v : ScanData) :
    ∀ m : List (String × ScanData), (∃ p ∈ m, p.1 = k') →
      List.lookup k'
        (m.map (fun p => if p.1 = k' then (k', v) else p)) = some v := by
  intro m
  induction m with
  | nil =>
    rintro ⟨p, hp, -⟩
    exact absurd hp (List.not_mem_nil p)
  | cons p m' ih =>
    rintro ⟨q, hq, hqe⟩
    simp only [List.map_cons]
    by_cases hpk : p.1 = k'
    · rw [if_pos hpk]
      simp [List.lookup]
    · rw [if_neg hpk]
      have hb : (k' == p.1) = false := by
        rw [beq_eq_false_iff_ne]
        exact fun he => hpk he.symm
      simp only [List.lookup, hb]
      apply ih
      rcases List.mem_cons.mp hq with rfl | hq'
      · exact absurd hqe hpk
      · exact ⟨q, hq', hqe⟩

/-- Helper for C10: looking up any other key is unaffected by the
overwrite branch of `dictInsert`. -/
theorem lookup_map_other (k k' : String) (v : ScanData) (hk : k ≠ k') :
    ∀ m : List (String × ScanData),
      List.lookup k (m.map (fun p => if p.1 = k' then (k', v) else p)) =
        List.lookup k m := by
  intro m
  induction m with
  | nil => rfl
  | cons p m' ih =>
    simp only [List.map_cons]
    by_cases hpk : p.1 = k'
    · rw [if_pos hpk]
      have h1 : (k == k') = false := by rw [beq_eq_false_iff_ne]; exact hk
      have h2 : (k == p.1) = false := by
        rw [beq_eq_false_iff_ne, hpk]; exact hk
      simp only [List.lookup, h1, h2]
      exact ih
    · rw [if_neg hpk]
      rcases p with ⟨pk, pv⟩
      simp only [List.lookup]
      by_cases hkp : (k == pk) = true
      · rw [hkp]
      · rw [Bool.not_eq_true] at hkp
        rw [hkp]
        exact ih

/-- Helper for C10: looking up a key in the fresh-append branch of
`dictInsert` finds the appended pair only for the fresh key. -/
theorem lookup_append_fresh (k k' : String) (v : ScanData) :
    ∀ m : List (String × ScanData), (∀ p ∈ m, p.1 ≠ k') →
      List.lookup k (m ++ [(k', v)]) =
        if k = k' then some v else List.lookup k m := by
  intro m
  induction m with
  | nil =>
    intro _
    by_cases hk : k = k'
    · have hb : (k == k') = true := beq_iff_eq.mpr hk
      simp [List.lookup, hb, hk]
    · have hb : (k == k') = false := by rw [beq_eq_false_iff_ne]; exact hk
      simp [List.lookup, hb, hk]
  | cons p m' ih =>
    intro hfresh
    rcases p with ⟨pk, pv⟩
    simp only [List.cons_append, List.lookup]
    by_cases hkp : (k == pk) = true
    · rw [hkp]
      have hk : k ≠ k' := by
        rw [beq_iff_eq] at hkp
        rw [hkp]
        exact hfresh (pk, pv) (List.mem_cons_self (pk, pv) m')
      rw [if_neg hk]
    · rw [Bool.not_eq_true] at hkp
      rw [hkp]
      exact ih (fun q hq => hfresh q (List.mem_cons_of_mem (pk, pv) hq))

/-- Helper for C10: a Python-dict assignment changes exactly the written
key, regardless of whether it overwrites or appends. -/
theorem lookup_dictInsert (m : List (String × ScanData)) (k k' : String)
    (v : ScanData) :
    List.lookup k (dictInsert m k' v) =
      if k = k' then some v else List.lookup k m := by
  unfold dictInsert
  by_cases hc : m.any (fun p => p.1 = k') = true
  · rw [if_pos hc]
    by_cases hk : k = k'
    · subst hk
      rw [if_pos rfl]
      apply lookup_map_overwrite
      rcases List.any_eq_true.mp hc with ⟨p, hp, hpe⟩
      exact ⟨p, hp, by simpa using hpe⟩
    · rw [if_neg hk]
      exact lookup_map_other k k' v hk m
  · rw [Bool.not_eq_true] at hc
    rw [if_neg (by simp [hc])]
    apply lookup_append_fresh
    intro p hp hpe
    have : p.1 ∈ m.map Prod.fst := List.mem_map_of_mem Prod.fst hp
    rw [hpe] at this
    exact (any_key_eq_false_iff m k').mp hc this

/-- Helper for C10: a non-empty list has a last element. -/
theorem getLast?_cons_some {α : Type} (x : α) (xs : List α) :
    ∃ y, (x :: xs).getLast? = some y := by
  induction xs generalizing x with
  | nil => exact ⟨x, rfl⟩
  | cons z t ih =>
    rw [List.getLast?_cons_cons]
    exact ih z

/-- Helper for C10: the value the `batch_scan` fold stores under a key
is the one computed from the last input-order directory whose basename
is that key — the dictionary is written in submission order, so later
duplicates overwrite earlier ones. -/
theorem foldl_dictInsert_lookup (f : String → ScanData) :
    ∀ (ds : List String) (m : List (String × ScanData)) (k : String),
      List.lookup k
        (ds.foldl (fun acc d => dictInsert acc (pathName d) (f d)) m) =
        (match (ds.filter (fun d => pathName d == k)).getLast? with
          | some d => some (f d)
          | none => List.lookup k m) := by
  intro ds
  induction ds with
  | nil => intro m k; rfl
  | cons d ds ih =>
    intro m k
    simp only [List.foldl_cons, List.filter_cons]
    rw [ih]
    by_cases hdk : (pathName d == k) = true
    · simp only [hdk, if_true]
      rcases hf : ds.filter (fun d => pathName d == k) with - | ⟨x, xs⟩
      · simp only [List.getLast?_singleton]
        rw [lookup_dictInsert, if_pos (beq_iff_eq.mp hdk).symm]
        rfl
      · rw [List.getLast?_cons_cons]
        obtain ⟨y, hy⟩ := getLast?_cons_some x xs
        rw [hy]
    · rw [Bool.not_eq_true] at hdk
      simp only [hdk, Bool.false_eq_true, if_false]
      rcases hf : ds.filter (fun d => pathName d == k) with - | ⟨x, xs⟩
      · rw [lookup_dictInsert, if_neg]
        intro he
        rw [he, beq_self_eq_true] at hdk
        exact Bool.noConfusion hdk
      · obtain ⟨y, hy⟩ := getLast?_cons_some x xs
        rw [hy]

/-- Helper for C10: the collision makes the batch dictionary strictly
shorter than the input list (duplicate-free keys drawn from the
basenames). -/
theorem C10_length_lt (scanner : String → ScanOutcome)
    (dirs : List String) (h : ¬ (dirs.map pathName).Nodup) :
    (batch_scan scanner true dirs).length < dirs.length := by
  rcases dirs with - | ⟨a, t⟩
  · exact absurd List.nodup_nil h
  rcases t with - | ⟨b, t⟩
  · exact absurd (List.nodup_singleton _) h
  obtain ⟨hnodup, hmem⟩ := foldl_dictInsert_keys
    (fun d => outcomeToData (scanner d)) (a :: b :: t) [] (by simp)
  have hsub : ∀ x ∈ ((a :: b :: t).foldl
      (fun acc d => dictInsert acc (pathName d) (outcomeToData (scanner d)))
      []).map Prod.fst, x ∈ (a :: b :: t).map pathName := by
    intro x hx
    rcases hmem x hx with hm | hm
    · simp at hm
    · exact hm
  have hsp : (((a :: b :: t).foldl
      (fun acc d => dictInsert acc (pathName d) (outcomeToData (scanner d)))
      []).map Prod.fst).Subperm ((a :: b :: t).map pathName).dedup :=
    hnodup.subperm (fun x hx => List.mem_dedup.mpr (hsub x hx))
  have h2 : ((a :: b :: t).map pathName).dedup.length <
      ((a :: b :: t).map pathName).length := by
    have hsl := List.dedup_sublist ((a :: b :: t).map pathName)
    rcases Nat.lt_or_ge ((a :: b :: t).map pathName).dedup.length
        ((a :: b :: t).map pathName).length with hlt | hge
    · exact hlt
    · exact absurd
        ((hsl.eq_of_length (Nat.le_antisymm hsl.length_le hge)) ▸
          ((a :: b :: t).map pathName).nodup_dedup) h
  have hlen : (batch_scan scanner true (a :: b :: t)).length =
      (((a :: b :: t).foldl
        (fun acc d => dictInsert acc (pathName d) (outcomeToData (scanner d)))
        []).map Prod.fst).length := by
    rw [List.length_map]
    rfl
  rw [hlen]
  calc (((a :: b :: t).foldl
      (fun acc d => dictInsert acc (pathName d) (outcomeToData (scanner d)))
      []).map Prod.fst).length
      ≤ ((a :: b :: t).map pathName).dedup.length := hsp.length_le
    _ < ((a :: b :: t).map pathName).length := h2
    _ = (a :: b :: t).length := List.length_map _ _

/-- C10 counterexample: with `a/x` submitted first and `b/x` second, the
shared key `x` deterministically holds `b/x`'s result — the last
directory in input (submission) order — because `batch_scan` iterates
the futures dictionary in submission order and assigns
`scan_results[name] = future.result()` in that order, independent of
completion time.  Under any schedule in which `a/x` finishes after
`b/x`, the claim's parenthetical "the last-completed scan wins"
predicts `a/x`'s distinct result instead, so the claim as stated is
false; the surviving value is fixed by input order alone. -/
theorem C10_counterexample :
    (batch_scan
      (fun d => if d == "a/x" then ScanOutcome.ok ⟨"success", Severity.SAFE, 0⟩
        else ScanOutcome.ok ⟨"threat_found", Severity.LOW, 1⟩)
      true ["a/x", "b/x"]).lookup "x" =
        some ⟨"threat_found", Severity.LOW, 1⟩ ∧
    (⟨"threat_found", Severity.LOW, 1⟩ : ScanData) ≠
      ⟨"success", Severity.SAFE, 0⟩ := by decide

/-- C10 amended: `batch_scan` keys its result dictionary by the skill
directory's basename, so an input list containing two or more
directories sharing one basename produces strictly fewer result entries
than there are input directories; the surviving result under the shared
key is the one of the last such directory in input (submission) order —
not the last-completed scan — because futures are iterated in
submission order. -/
theorem C10_amended_basename_collision (scanner : String → ScanOutcome)
    (dirs : List String) (h : ¬ (dirs.map pathName).Nodup) :
    (batch_scan scanner true dirs).length < dirs.length ∧
    ∀ k d, (dirs.filter (fun d => pathName d == k)).getLast? = some d →
      (batch_scan scanner true dirs).lookup k =
        some (outcomeToData (scanner d)) := by
  constructor
  · exact C10_length_lt scanner dirs h
  · intro k d hd
    rcases dirs with - | ⟨a, t⟩
    · exact absurd List.nodup_nil h
    rcases t with - | ⟨b, t⟩
    · exact absurd (List.nodup_singleton _) h
    have hlk := foldl_dictInsert_lookup
      (fun d => outcomeToData (scanner d)) (a :: b :: t) [] k
    rw [hd] at hlk
    exact hlk

/-- C10 amended witness: `a/x` and `b/x` collide under basename `x`, the
batch holds fewer entries than inputs, and the surviving entry is the
result of `b/x`, the last duplicate in input order. -/
theorem C10_amended_basename_collision_witness :
    (batch_scan
      (fun d => if d == "a/x" then ScanOutcome.ok ⟨"success", Severity.SAFE, 0⟩
        else ScanOutcome.ok ⟨"threat_found", Severity.LOW, 1⟩)
      true ["a/x", "b/x"]).length < 2 ∧
    (batch_scan
      (fun d => if d == "a/x" then ScanOutcome.ok ⟨"success", Severity.SAFE, 0⟩
        else ScanOutcome.ok ⟨"threat_found", Severity.LOW, 1⟩)
      true ["a/x", "b/x"]).lookup "x" =
        some ⟨"threat_found", Severity.LOW, 1⟩ := by
  have h := C10_amended_basename_collision
    (fun d => if d == "a/x" then ScanOutcome.ok ⟨"success", Severity.SAFE, 0⟩
      else ScanOutcome.ok ⟨"threat_found", Severity.LOW, 1⟩)
    ["a/x", "b/x"] (by decide)
  refine ⟨h.1, ?_⟩
  rw [h.2 "x" "b/x" (by decide)]
  decide

end AiStation
